import Mathlib

/-!
Verification development for the ThinkThrift account console.

This file shallowly embeds the logic of the account-table component
(`src/components/AccountTable.tsx`), the store handlers of the application
root (`src/unnamed/part_002`) and the AI service (`src/services/geminiService.ts`).
JavaScript numbers that carry fractional data (follower counts, engagement
rates) are modelled as rationals; JS `Set` values are modelled as `Finset`;
optional record fields that the code only reads through truthiness or a
defaulting operator are modelled by the defaulted value (a `Bool` that is
`false` when the field is absent, a list that is empty when absent), and
optional string fields are modelled as `Option String`.
-/

/-- One activity-log entry (`ActivityLog` in `src/types.ts`). -/
structure ActivityLog where
  date : String
  action : String
  details : Option String := none
deriving Repr, DecidableEq

/-- The four platform values of `UserAccount.platform` in `src/types.ts`. -/
inductive Platform
  | Twitter
  | Instagram
  | LinkedIn
  | TikTok
deriving Repr, DecidableEq

/-- The display name of a platform, as the string union type in `src/types.ts`. -/
def platformName : Platform → String
  | .Twitter => "Twitter"
  | .Instagram => "Instagram"
  | .LinkedIn => "LinkedIn"
  | .TikTok => "TikTok"

/-- The four status values of `UserAccount.status` in `src/types.ts`. -/
inductive Status
  | Active
  | Shadowbanned
  | Suspended
  | Verified
deriving Repr, DecidableEq

/-- The status display string. -/
def statusName : Status → String
  | .Active => "Active"
  | .Shadowbanned => "Shadowbanned"
  | .Suspended => "Suspended"
  | .Verified => "Verified"

/-- An account record (`UserAccount` in `src/types.ts`).  `followers` and
`engagementRate` are JS numbers, modelled as rationals.  `isFavorite`,
`isArchived` are optional booleans read only through truthiness, so an absent
value is modelled as `false`; `tags` and `history` are optional arrays that the
code always reads through a `|| []` style default, so an absent value is
modelled as `[]`.  The remaining optional string fields keep an `Option`. -/
structure UserAccount where
  id : String
  username : String
  platform : Platform
  followers : Rat
  engagementRate : Rat
  status : Status
  lastActive : String := ""
  bio : String := ""
  category : String := ""
  avatar : String := ""
  realName : Option String := none
  email : Option String := none
  password : Option String := none
  twoFactorSecret : Option String := none
  phone : Option String := none
  website : Option String := none
  country : Option String := none
  tags : List String := []
  isFavorite : Bool := false
  isArchived : Bool := false
  accountManager : Option String := none
  targetAudience : Option String := none
  lastPostedDate : Option String := none
  creationDate : Option String := none
  notes : Option String := none
  history : List ActivityLog := []
deriving Repr, DecidableEq

/-- The AI analysis result shape (`AIAnalysisResult` in `src/types.ts`). -/
structure AIAnalysisResult where
  sentiment : String
  strengths : List String
  weaknesses : List String
  growthStrategy : String
deriving Repr, DecidableEq

/-! ### String helpers mirroring the JavaScript string operations used -/

/-- Whether the character list `s` starts with the character list `pre`. -/
def charsStartWith : List Char → List Char → Bool
  | [], _ => true
  | _ :: _, [] => false
  | p :: ps, c :: cs => p = c && charsStartWith ps cs

/-- Whether `needle` occurs as a contiguous run inside `s` (character lists). -/
def charsContain (needle : List Char) : List Char → Bool
  | [] => needle.isEmpty
  | c :: cs => charsStartWith needle (c :: cs) || charsContain needle cs

/-- JS `hay.includes(needle)` on strings. -/
def jsIncludes (hay needle : String) : Bool :=
  charsContain needle.toList hay.toList

/-- JS `s.startsWith(pre)` on strings. -/
def jsStartsWith (s pre : String) : Bool :=
  charsStartWith pre.toList s.toList

/-- JS `s.replace(pat, repl)` replaces only the first occurrence, while the
Lean `String.replace` replaces all of them, so the first-occurrence
semantics is rebuilt from `splitOn`. -/
def jsReplaceFirst (s pat repl : String) : String :=
  match s.splitOn pat with
  | [] => s
  | [x] => x
  | x :: y :: rest => x ++ repl ++ String.intercalate pat (y :: rest)

/-- Truthiness of an optional JS string: absent and empty are both falsy. -/
def jsTruthyStr (o : Option String) : Bool :=
  o.getD "" != ""

/-! ### Form normalization (`handleSubmit` in `src/components/AccountTable.tsx`) -/

/-- `tagsInput.split(',').map(t => t.trim()).filter(Boolean)` from
`handleSubmit` (line 150). -/
def splitTags (s : String) : List String :=
  ((s.splitOn ",").map String.trim).filter (fun t => t != "")

/-- `formState.username.startsWith('@') ? formState.username : '@' + formState.username`
from `handleSubmit` (line 151). -/
def normalizeUsername (u : String) : String :=
  if jsStartsWith u "@" then u else "@" ++ u

/-- The avatar URL derived in the add branch of `handleSubmit` (line 159):
a ui-avatars query built from the normalized username with its first `@`
removed. -/
def avatarUrl (username : String) : String :=
  "https://ui-avatars.com/api/?name=" ++ jsReplaceFirst username "@" ""
    ++ "&background=random&color=fff"

/-- `initialFormState` of the component (lines 43-49): every field empty or
zero; the fields a fresh form does not carry (id, avatar, flags, history)
sit at their modelled defaults.  In edit mode the component spreads the
edited account over this state, which is modelled by supplying that account
value directly. -/
def initialFormState : UserAccount :=
  { id := "", username := "", platform := .Twitter, followers := 0,
    engagementRate := 0, status := .Active }

/-! ### Sorting (`filteredData` lines 69-77 of `AccountTable.tsx`) -/

/-- A JS value produced by reading a sort field: the keys the component sorts
on are either strings or numbers.  A fixed sort key always yields a single
constructor, so the mixed cases of the comparison below are unreachable. -/
inductive JSValue
  | str (s : String)
  | num (q : Rat)
deriving Repr, DecidableEq

/-- JS `aVal < bVal` for two same-typed values (the only case a fixed sort
key produces). -/
def JSValue.ltb : JSValue → JSValue → Bool
  | .str a, .str b => decide (a < b)
  | .num a, .num b => decide (a < b)
  | _, _ => false

/-- The sort keys exercised by the component: the two column headers pass
`username` and `accountManager` to `handleSort`, and the spec discusses
sorting on the numeric metric fields as well. -/
inductive SortKey
  | username
  | accountManager
  | followers
  | engagementRate
deriving Repr, DecidableEq

inductive SortDir
  | asc
  | desc
deriving Repr, DecidableEq

structure SortConfig where
  key : SortKey
  direction : SortDir
deriving Repr, DecidableEq

/-- `a[sortConfig.key] ?? ''` (lines 71-72): a missing or undefined field
value becomes the empty string; required fields are read directly. -/
def sortKeyVal : SortKey → UserAccount → JSValue
  | .username, a => .str a.username
  | .accountManager, a => .str (a.accountManager.getD "")
  | .followers, a => .num a.followers
  | .engagementRate, a => .num a.engagementRate

/-- The comparator of lines 70-76: `-1` when `aVal < bVal` (flipped when
descending), `1` when `aVal > bVal` (JS `a > b` is `b < a` for same-typed
operands), else `0`. -/
def sortCmp (cfg : SortConfig) (a b : UserAccount) : Int :=
  let aVal := sortKeyVal cfg.key a
  let bVal := sortKeyVal cfg.key b
  if aVal.ltb bVal then (match cfg.direction with | .asc => -1 | .desc => 1)
  else if bVal.ltb aVal then (match cfg.direction with | .asc => 1 | .desc => -1)
  else 0

/-- The ordering induced by the comparator: `a` may be placed at or before
`b` exactly when the comparator does not order `b` strictly first.  JS
`Array.prototype.sort` is a stable sort consistent with the comparator, so
it is modelled as insertion sort under this relation. -/
def jsSortLe (cfg : SortConfig) (a b : UserAccount) : Prop :=
  sortCmp cfg a b ≤ 0

instance (cfg : SortConfig) : DecidableRel (jsSortLe cfg) :=
  fun a b => inferInstanceAs (Decidable (sortCmp cfg a b ≤ 0))

/-! ### The filtered view (`filteredData`, lines 56-79) -/

inductive ViewMode
  | active
  | archived
deriving Repr, DecidableEq

structure FilterState where
  searchTerm : String
  viewMode : ViewMode
  showFavoritesOnly : Bool
  sortConfig : Option SortConfig
deriving Repr, DecidableEq

/-- The search predicate of lines 60-66: case-insensitive containment of the
term in username or platform, or in the optional realName / email /
accountManager fields when those are truthy. -/
def searchMatches (term : String) (item : UserAccount) : Bool :=
  let lower := term.toLower
  jsIncludes item.username.toLower lower ||
  jsIncludes (platformName item.platform).toLower lower ||
  (jsTruthyStr item.realName && jsIncludes (item.realName.getD "").toLower lower) ||
  (jsTruthyStr item.email && jsIncludes (item.email.getD "").toLower lower) ||
  (jsTruthyStr item.accountManager && jsIncludes (item.accountManager.getD "").toLower lower)

/-- The view-mode filter of line 57. -/
def viewModeKeeps (vm : ViewMode) (item : UserAccount) : Bool :=
  match vm with
  | .active => !item.isArchived
  | .archived => item.isArchived

/-- `filteredData` (lines 56-79): partition by archived flag, then search,
then favorites, then an optional stable sort with the field comparator. -/
def filteredData (data : List UserAccount) (st : FilterState) : List UserAccount :=
  let result := data.filter (viewModeKeeps st.viewMode)
  let result := if st.searchTerm = "" then result else result.filter (searchMatches st.searchTerm)
  let result := if st.showFavoritesOnly then result.filter (fun item => item.isFavorite) else result
  match st.sortConfig with
  | none => result
  | some cfg => List.insertionSort (jsSortLe cfg) result

/-! ### Pagination (lines 54, 81-82 and the footer lines 303-308) -/

def ITEMS_PER_PAGE : Nat := 10

/-- `filteredData.slice((currentPage - 1) * ITEMS_PER_PAGE, currentPage * ITEMS_PER_PAGE)`. -/
def paginatedData (fd : List UserAccount) (currentPage : Nat) : List UserAccount :=
  (fd.drop ((currentPage - 1) * ITEMS_PER_PAGE)).take ITEMS_PER_PAGE

/-- `Math.ceil(filteredData.length / ITEMS_PER_PAGE)` (line 82). -/
def totalPages (fd : List UserAccount) : Nat :=
  (fd.length + ITEMS_PER_PAGE - 1) / ITEMS_PER_PAGE

/-- The page count the footer renders: `totalPages || 1` (lines 304 and 307). -/
def displayedTotalPages (fd : List UserAccount) : Nat :=
  if totalPages fd = 0 then 1 else totalPages fd

/-! ### Selection (lines 24, 101-114) -/

/-- `toggleSelectAll` (lines 101-107): clear the selection when its size
equals the page length, otherwise select exactly the ids on the page. -/
def toggleSelectAll (selectedIds : Finset String) (page : List UserAccount) : Finset String :=
  if selectedIds.card = page.length then ∅
  else (page.map (fun d => d.id)).toFinset

/-- `toggleSelectOne` (lines 109-114). -/
def toggleSelectOne (selectedIds : Finset String) (id : String) : Finset String :=
  if id ∈ selectedIds then selectedIds.erase id else insert id selectedIds

/-! ### Bulk actions (`handleBulk` lines 140-145, `handleBulkAction` in the
application root, `src/unnamed/part_002` lines 104-122) -/

inductive BulkAction
  | archive
  | restore
  | delete
deriving Repr, DecidableEq

/-- The store-side batch of `handleBulkAction`: delete removes each targeted
document, archive and restore write the corresponding `isArchived` flag on
each targeted document. -/
def bulkAction (store : List UserAccount) (ids : List String) (action : BulkAction) : List UserAccount :=
  match action with
  | .delete => store.filter (fun a => !(ids.contains a.id))
  | .archive => store.map (fun a => if ids.contains a.id then { a with isArchived := true } else a)
  | .restore => store.map (fun a => if ids.contains a.id then { a with isArchived := false } else a)

/-- `Array.from(selectedIds)`: some enumeration of the id set.  JS uses
insertion order; only membership matters downstream, so the set is
enumerated in a canonical order here. -/
def selectionList (selectedIds : Finset String) : List String :=
  selectedIds.sort (fun a b => a ≤ b)

/-- `handleBulk` followed by the refresh: a no-op on an empty selection;
otherwise the store mutation runs, the collection refreshes from the new
store, and the selection clears.  Returns the refreshed collection and the
new selection. -/
def handleBulk (store : List UserAccount) (selectedIds : Finset String)
    (action : BulkAction) : List UserAccount × Finset String :=
  if selectedIds.card = 0 then (store, selectedIds)
  else (bulkAction store (selectionList selectedIds) action, ∅)

/-! ### CSV export (`handleExport`, lines 179-189) -/

/-- The row source: the full collection restricted to the selected ids when
anything is selected, otherwise the current filtered view (line 180). -/
def exportSource (data : List UserAccount) (selectedIds : Finset String)
    (st : FilterState) : List UserAccount :=
  if 0 < selectedIds.card then data.filter (fun d => decide (d.id ∈ selectedIds))
  else filteredData data st

/-- One CSV data row (line 182); JS `Array.join` renders an undefined field
as the empty string. -/
def csvRow (u : UserAccount) : String :=
  String.intercalate ","
    [u.id, u.username, platformName u.platform, toString u.followers,
     u.accountManager.getD "", statusName u.status, u.email.getD ""]

/-- The CSV lines: header line then one row per source record (lines 181-182). -/
def exportLines (data : List UserAccount) (selectedIds : Finset String)
    (st : FilterState) : List String :=
  "ID,Username,Platform,Followers,Manager,Status,Email"
    :: (exportSource data selectedIds st).map csvRow

/-! ### Component state transitions that touch the selection -/

/-- The table-component state cells relevant to selection persistence. -/
structure TableState where
  searchTerm : String
  selectedIds : Finset String
  currentPage : Nat
  viewMode : ViewMode
  sortConfig : Option SortConfig
  showFavoritesOnly : Bool
deriving DecidableEq

/-- The view-mode buttons (lines 211-212) call only `setViewMode`. -/
def setViewModeState (s : TableState) (m : ViewMode) : TableState :=
  { s with viewMode := m }

/-- The search box (line 200) calls only `setSearchTerm`. -/
def setSearchTermState (s : TableState) (t : String) : TableState :=
  { s with searchTerm := t }

/-! ### Form submission (`handleSubmit`, lines 147-172) -/

inductive ModalMode
  | add
  | edit
deriving Repr, DecidableEq

/-- The mutation intents the component hands to the application root: an add
intent carries the new record (the store assigns the id), an update intent
carries the target id and the submitted field set. -/
inductive Intent
  | addAccount (payload : UserAccount)
  | updateAccount (id : String) (payload : UserAccount)
deriving Repr, DecidableEq

/-- `currentAccount?.history || []` for the edit branch (line 166): the
history of the record found in the current collection, or empty when no
record carries the id. -/
def historyOf (data : List UserAccount) (id : String) : List ActivityLog :=
  ((data.find? (fun d => d.id == id)).map (fun d => d.history)).getD []

/-- The one history entry the edit branch appends (line 165). -/
def profileUpdatedEntry (now : String) : ActivityLog :=
  { date := now, action := "Profile Updated", details := none }

/-- The add payload (lines 155-161): the staged form fields with the
normalized username, the parsed tag list, the derived avatar URL, and a
fresh one-entry history. -/
def addPayload (formState : UserAccount) (tagsInput now : String) : UserAccount :=
  let tags := splitTags tagsInput
  let username := normalizeUsername formState.username
  { formState with
      username := username, tags := tags, avatar := avatarUrl username,
      history := [{ date := now, action := "Account Created", details := some "Initial entry" }] }

/-- The edit payload (line 166): the staged form fields (which, in edit mode,
are the opened account overlaid by the edits) with the normalized username,
the parsed tag list, and the existing history of the target record with one
"Profile Updated" entry appended. -/
def editPayload (data : List UserAccount) (formState : UserAccount)
    (tagsInput now : String) : UserAccount :=
  let tags := splitTags tagsInput
  let username := normalizeUsername formState.username
  { formState with
      username := username, tags := tags,
      history := historyOf data formState.id ++ [profileUpdatedEntry now] }

/-- The intent issued by `handleSubmit` once the submit event fires. -/
def handleSubmitIntent (mode : ModalMode) (data : List UserAccount)
    (formState : UserAccount) (tagsInput now : String) : Intent :=
  match mode with
  | .add => .addAccount (addPayload formState tagsInput now)
  | .edit => .updateAccount formState.id (editPayload data formState tagsInput now)

/-- The HTML constraint validation declared by the form inputs (lines 482,
494, 498): username is `required`; followers is `type=number required min=0`
with the default integral step; engagement rate is `type=number required
min=0 max=100 step=0.1`.  The browser fires the submit event only when every
constraint holds. -/
def formConstraintsOk (f : UserAccount) : Bool :=
  (f.username != "") && f.followers.isInt && decide (0 ≤ f.followers)
    && (f.engagementRate * 10).isInt && decide (0 ≤ f.engagementRate)
    && decide (f.engagementRate ≤ 100)

/-- The submit pipeline seen from the store: the constraint-validated form
either issues its intent or is blocked with no intent issued. -/
def submitForm (mode : ModalMode) (data : List UserAccount)
    (formState : UserAccount) (tagsInput now : String) : Option Intent :=
  if formConstraintsOk formState then
    some (handleSubmitIntent mode data formState tagsInput now)
  else none

/-! ### AI service (`src/services/geminiService.ts`) -/

/-- The outcome of one `generateContent` round trip: either the call threw
(network failure, timeout, rejected request) or a response object came back. -/
inductive CallResult (α : Type)
  | ok (v : α)
  | thrown
deriving Repr, DecidableEq

/-- The parts of a `generateContent` response the service reads: `text`
(the empty string models both an absent and an empty text, which JS
truthiness identifies) and the optional grounding-chunk list reached through
`candidates?.[0]?.groundingMetadata?.groundingChunks` (where `none` models
any broken link on that path). -/
structure GenResponse where
  text : String
  groundingChunks : Option (List String) := none
deriving Repr, DecidableEq

/-- `analyzeAccount` (lines 7-50): on a thrown call the catch block returns
null; on a response, a falsy `text` returns null, and otherwise the text is
parsed, where a parse failure throws into the same catch block and also
returns null.  `parseJson` stands for `JSON.parse` against the result shape. -/
def analyzeAccount (resp : CallResult GenResponse)
    (parseJson : String → Option AIAnalysisResult) : Option AIAnalysisResult :=
  match resp with
  | .thrown => none
  | .ok r => if r.text = "" then none else parseJson r.text

/-- The result shape of `getPlatformTrends`. -/
structure TrendsResult where
  text : String
  sources : List String
deriving Repr, DecidableEq

/-- `getPlatformTrends` (lines 52-71): a thrown call degrades to the fixed
fallback object; a response yields its text (or the no-data message when the
text is falsy) and its grounding chunks (or an empty list). -/
def getPlatformTrends (resp : CallResult GenResponse) : TrendsResult :=
  match resp with
  | .thrown => { text := "Failed to fetch live trends.", sources := [] }
  | .ok r =>
    { text := if r.text = "" then "No trend data available." else r.text,
      sources := r.groundingChunks.getD [] }

/-! ### Concrete sample records for witnesses and counterexamples -/

/-- A minimal account with a given id, used to instantiate theorems. -/
def sampleAcct (i : String) : UserAccount :=
  { id := i, username := "@" ++ i, platform := .Twitter, followers := 0,
    engagementRate := 0, status := .Active }

/-! ### Claim theorems -/

/-- C7: the stored username of a submission equals the input when it already
starts with an at-sign and otherwise equals the input with an at-sign
prepended, in both the add and the edit pipelines; in particular "alice" is
stored as "@alice" and "@bob" is stored unchanged. -/
theorem username_at_sign_rule (f : UserAccount) (data : List UserAccount)
    (tagsInput now : String) :
    (addPayload f tagsInput now).username
      = (if jsStartsWith f.username "@" then f.username else "@" ++ f.username)
    ∧ (editPayload data f tagsInput now).username
      = (if jsStartsWith f.username "@" then f.username else "@" ++ f.username)
    ∧ (addPayload { initialFormState with username := "alice" } tagsInput now).username
      = "@alice"
    ∧ (addPayload { initialFormState with username := "@bob" } tagsInput now).username
      = "@bob" := by
  refine ⟨rfl, rfl, ?_, ?_⟩
  · show normalizeUsername "alice" = "@alice"
    decide
  · show normalizeUsername "@bob" = "@bob"
    decide

/-- C8: on any failure (thrown call, empty text, malformed payload) the
analysis call yields `none`, while the trends call on a thrown request
yields the fixed fallback object with an empty source list (its return type
is total, never an optional). -/
theorem ai_failure_shapes :
    (∀ parseJson, analyzeAccount .thrown parseJson = none)
    ∧ (∀ r parseJson, r.text = "" → analyzeAccount (.ok r) parseJson = none)
    ∧ (∀ r parseJson, parseJson r.text = none → analyzeAccount (.ok r) parseJson = none)
    ∧ getPlatformTrends .thrown = { text := "Failed to fetch live trends.", sources := [] } := by
  refine ⟨fun _ => rfl, ?_, ?_, rfl⟩
  · intro r parseJson h
    simp [analyzeAccount, h]
  · intro r parseJson h
    by_cases ht : r.text = "" <;> simp [analyzeAccount, ht, h]

/-- Witness for C8 at a concrete empty-text response. -/
theorem ai_failure_shapes_witness :
    analyzeAccount (.ok { text := "" }) (fun _ => none) = none :=
  ai_failure_shapes.2.1 { text := "" } (fun _ => none) rfl

/-- C4: with no search, favorites filter or sort, the active view and the
archived view partition the collection: the lengths sum to the collection
length, no record is in both views, and every record is in one of them. -/
theorem active_archived_partition (data : List UserAccount) :
    (filteredData data ⟨"", .active, false, none⟩).length
        + (filteredData data ⟨"", .archived, false, none⟩).length = data.length
    ∧ (∀ a, a ∈ filteredData data ⟨"", .active, false, none⟩ →
        a ∉ filteredData data ⟨"", .archived, false, none⟩)
    ∧ (∀ a, a ∈ data → a ∈ filteredData data ⟨"", .active, false, none⟩
        ∨ a ∈ filteredData data ⟨"", .archived, false, none⟩) := by
  have hA : filteredData data ⟨"", .active, false, none⟩
      = data.filter (fun a => !a.isArchived) := rfl
  have hR : filteredData data ⟨"", .archived, false, none⟩
      = data.filter (fun a => a.isArchived) := rfl
  rw [hA, hR]
  refine ⟨?_, ?_, ?_⟩
  · have hp := (List.filter_append_perm (fun a : UserAccount => a.isArchived) data).length_eq
    simp only [List.length_append] at hp
    omega
  · intro a ha hr
    have h1 := (List.mem_filter.mp ha).2
    have h2 := (List.mem_filter.mp hr).2
    simp at h1 h2
    exact absurd h2 (by simp [h1])
  · intro a ha
    by_cases h : a.isArchived
    · exact Or.inr (List.mem_filter.mpr ⟨ha, by simp [h]⟩)
    · exact Or.inl (List.mem_filter.mpr ⟨ha, by simp [h]⟩)

/-- Witness for C4 at a one-record collection. -/
theorem active_archived_partition_witness :
    sampleAcct "a" ∈ filteredData [sampleAcct "a"] ⟨"", .active, false, none⟩
    ∨ sampleAcct "a" ∈ filteredData [sampleAcct "a"] ⟨"", .archived, false, none⟩ :=
  (active_archived_partition [sampleAcct "a"]).2.2 (sampleAcct "a") (by simp)

/-- Ceiling division by ten matches the rational ceiling. -/
theorem add_nine_div_ten_eq_ceil (n : ℕ) : (n + 9) / 10 = ⌈(n : ℚ) / 10⌉₊ := by
  rcases Nat.eq_zero_or_pos n with h | h
  · subst h
    simp
  · have hk : (n + 9) / 10 ≠ 0 := by omega
    symm
    rw [Nat.ceil_eq_iff hk]
    constructor
    · have h2 : 10 * ((n + 9) / 10 - 1) < n := by omega
      rw [lt_div_iff₀ (by norm_num : (0:ℚ) < 10)]
      calc (((n + 9) / 10 - 1 : ℕ) : ℚ) * 10
          = ((10 * ((n + 9) / 10 - 1) : ℕ) : ℚ) := by push_cast; ring
        _ < (n : ℚ) := by exact_mod_cast h2
    · have h1 : n ≤ 10 * ((n + 9) / 10) := by omega
      rw [div_le_iff₀ (by norm_num : (0:ℚ) < 10)]
      calc (n : ℚ) ≤ ((10 * ((n + 9) / 10) : ℕ) : ℚ) := by exact_mod_cast h1
        _ = (((n + 9) / 10 : ℕ) : ℚ) * 10 := by push_cast; ring

/-- C3 counterexample: on the empty view the internal page count is `0`,
below the claimed minimum of `1`, while the displayed page count is `1`,
different from the claimed `ceil(0 / 10) = 0`; so no single quantity both
equals the ceiling and stays at least `1`. -/
theorem totalPages_empty_view_cex :
    totalPages ([] : List UserAccount) = 0
    ∧ ¬ 1 ≤ totalPages ([] : List UserAccount)
    ∧ displayedTotalPages ([] : List UserAccount)
        ≠ ⌈((List.length ([] : List UserAccount) : ℚ)) / 10⌉₊ := by
  refine ⟨rfl, by decide, ?_⟩
  have h0 : ((List.length ([] : List UserAccount) : ℚ)) / 10 = 0 := by simp
  rw [h0, Nat.ceil_zero]
  decide

/-- C3 (amended): the internal page count equals `ceil(length / 10)` exactly
(and is therefore `0`, not `1`, on an empty view), and the page count the
footer displays is that ceiling clamped below by `1`; on any non-empty view
the two agree and are at least `1`. -/
theorem totalPages_ceil_min_display (fd : List UserAccount) :
    totalPages fd = ⌈((fd.length : ℚ)) / 10⌉₊
    ∧ displayedTotalPages fd = max 1 (totalPages fd)
    ∧ (fd ≠ [] → displayedTotalPages fd = totalPages fd ∧ 1 ≤ totalPages fd) := by
  have hceil : totalPages fd = ⌈((fd.length : ℚ)) / 10⌉₊ := by
    have : fd.length + ITEMS_PER_PAGE - 1 = fd.length + 9 := by
      simp [ITEMS_PER_PAGE]
    rw [totalPages, this, ITEMS_PER_PAGE]
    exact add_nine_div_ten_eq_ceil fd.length
  refine ⟨hceil, ?_, ?_⟩
  · rw [displayedTotalPages]
    rcases Nat.eq_zero_or_pos (totalPages fd) with h | h
    · simp [h]
    · have h1 : totalPages fd ≠ 0 := by omega
      simp [h1]
      omega
  · intro hne
    have hlen : 0 < fd.length := List.length_pos.mpr hne
    have hpos : 0 < totalPages fd := by
      rw [totalPages, ITEMS_PER_PAGE]
      omega
    have h1 : totalPages fd ≠ 0 := by omega
    exact ⟨by simp [displayedTotalPages, h1], hpos⟩

/-- Witness for C3 (amended) at a one-record view. -/
theorem totalPages_ceil_min_display_witness :
    displayedTotalPages [sampleAcct "a"] = totalPages [sampleAcct "a"]
    ∧ 1 ≤ totalPages [sampleAcct "a"] :=
  (totalPages_ceil_min_display [sampleAcct "a"]).2.2 (by simp)

/-- C1 counterexample: with the page slice `[sampleAcct "a"]` and the prior
selection `{"b"}` (an id selected elsewhere, retained because selection is
never cleared on page, search or view changes), toggling select-all twice
yields `{"a"}`, not the original selection: the toggle compares only the
selection size with the page length. -/
theorem toggleSelectAll_twice_cex :
    toggleSelectAll (toggleSelectAll {"b"} [sampleAcct "a"]) [sampleAcct "a"]
      ≠ ({"b"} : Finset String) := by
  decide

/-- C1 (amended): toggling select-all twice on an unchanged page slice whose
ids are distinct returns the selection to its original contents provided the
prior selection is empty or is exactly the set of ids on the page slice; a
prior selection holding any other set of ids of matching size is clobbered,
as the counterexample shows. -/
theorem toggleSelectAll_twice_restores (page : List UserAccount) (S : Finset String)
    (hnodup : (page.map (fun d => d.id)).Nodup)
    (hS : S = ∅ ∨ S = (page.map (fun d => d.id)).toFinset) :
    toggleSelectAll (toggleSelectAll S page) page = S := by
  have hlen : (page.map (fun d => d.id)).length = page.length := List.length_map _ _
  have hcard : ((page.map (fun d => d.id)).toFinset).card = page.length := by
    rw [List.toFinset_card_of_nodup hnodup, hlen]
  rcases hS with h | h
  · subst h
    rcases Nat.eq_zero_or_pos page.length with hp | hp
    · simp [toggleSelectAll, hp]
    · have e1 : toggleSelectAll ∅ page = (page.map (fun d => d.id)).toFinset := by
        rw [toggleSelectAll, Finset.card_empty, if_neg (by omega)]
      rw [e1, toggleSelectAll, if_pos hcard]
  · subst h
    rcases Nat.eq_zero_or_pos page.length with hp | hp
    · have hpage : page = [] := List.length_eq_zero.mp hp
      subst hpage
      simp [toggleSelectAll]
    · have e1 : toggleSelectAll ((page.map (fun d => d.id)).toFinset) page = ∅ := by
        rw [toggleSelectAll, if_pos hcard]
      rw [e1, toggleSelectAll, Finset.card_empty, if_neg (by omega)]

/-- Witness for C1 (amended): the selection holding exactly the page ids is
restored by a double toggle. -/
theorem toggleSelectAll_twice_restores_witness :
    toggleSelectAll (toggleSelectAll {"a"} [sampleAcct "a"]) [sampleAcct "a"]
      = ({"a"} : Finset String) :=
  toggleSelectAll_twice_restores [sampleAcct "a"] {"a"} (by decide) (Or.inr (by decide))

/-- C2: a form whose engagement rate lies outside `[0, 100]`, whose follower
count is negative or not an integer, or whose username is empty fails the
declared input constraints, so the submit event never fires and no create or
update intent reaches the store. -/
theorem submit_blocked_on_invalid (mode : ModalMode) (data : List UserAccount)
    (f : UserAccount) (tagsInput now : String)
    (h : f.engagementRate < 0 ∨ 100 < f.engagementRate ∨ f.followers < 0
        ∨ f.followers.isInt = false ∨ f.username = "") :
    submitForm mode data f tagsInput now = none := by
  have hc : formConstraintsOk f = false := by
    rcases h with h | h | h | h | h
    · simp [formConstraintsOk, not_le.mpr h]
    · simp [formConstraintsOk, not_le.mpr h]
    · simp [formConstraintsOk, not_le.mpr h]
    · simp [formConstraintsOk, h]
    · simp [formConstraintsOk, h]
  simp [submitForm, hc]

/-- Witness for C2 at a concrete out-of-range engagement rate. -/
theorem submit_blocked_on_invalid_witness :
    submitForm .add [] { initialFormState with engagementRate := 101 } "" "" = none :=
  submit_blocked_on_invalid .add [] { initialFormState with engagementRate := 101 } "" ""
    (Or.inr (Or.inl (by norm_num)))

/-- Membership in the archive batch: a surviving record whose id is targeted
carries the archived flag. -/
theorem bulkAction_archive_flag (store : List UserAccount) (ids : List String)
    (a : UserAccount) (ha : a ∈ bulkAction store ids .archive)
    (hid : ids.contains a.id = true) : a.isArchived = true := by
  rw [bulkAction] at ha
  obtain ⟨b, hb, hfb⟩ := List.mem_map.mp ha
  by_cases hc : ids.contains b.id = true
  · rw [if_pos hc] at hfb
    rw [← hfb]
  · rw [if_neg hc] at hfb
    subst hfb
    exact absurd hid hc

/-- C5: a bulk archive on a non-empty selection, followed by the collection
refresh, leaves every surviving targeted record archived, hence in the
archived view and not the active view, and clears the selection. -/
theorem bulk_archive_moves_and_clears (store : List UserAccount)
    (sel : Finset String) (hsel : sel ≠ ∅) :
    (handleBulk store sel .archive).2 = ∅
    ∧ (∀ a, a ∈ (handleBulk store sel .archive).1 → a.id ∈ sel →
        a.isArchived = true
        ∧ a ∈ filteredData (handleBulk store sel .archive).1 ⟨"", .archived, false, none⟩
        ∧ a ∉ filteredData (handleBulk store sel .archive).1 ⟨"", .active, false, none⟩) := by
  have hcard : ¬ sel.card = 0 := fun h => hsel (Finset.card_eq_zero.mp h)
  have hb : handleBulk store sel .archive
      = (bulkAction store (selectionList sel) .archive, ∅) := by
    rw [handleBulk, if_neg hcard]
  rw [hb]
  refine ⟨rfl, ?_⟩
  intro a ha hid
  have hcontains : (selectionList sel).contains a.id = true := by
    have hmem : a.id ∈ selectionList sel := by
      rw [selectionList]
      exact (Finset.mem_sort (fun a b => a ≤ b)).mpr hid
    simpa using hmem
  have harch : a.isArchived = true := bulkAction_archive_flag store _ a ha hcontains
  refine ⟨harch, ?_, ?_⟩
  · exact List.mem_filter.mpr ⟨ha, by simp [viewModeKeeps, harch]⟩
  · intro hmem
    have h2 := (List.mem_filter.mp hmem).2
    simp [viewModeKeeps, harch] at h2

/-- Witness for C5: archiving the selection `{"a"}` over a one-record store
archives that record and clears the selection. -/
theorem bulk_archive_moves_and_clears_witness :
    (handleBulk [sampleAcct "a"] {"a"} .archive).2 = ∅ :=
  (bulk_archive_moves_and_clears [sampleAcct "a"] {"a"} (by decide)).1

/-- C6: an edit submission issues an update intent whose record carries the
prior log of the target record (looked up in the current collection) with
exactly one "Profile Updated" entry appended at the end — no prior entry
removed, replaced or reordered — and whose remaining fields are the staged
form fields, which in edit mode are the opened record overlaid by the edits. -/
theorem edit_appends_one_log_entry (data : List UserAccount) (f : UserAccount)
    (tagsInput now : String) (r : UserAccount)
    (hfind : data.find? (fun d => d.id == f.id) = some r) :
    (editPayload data f tagsInput now).history
        = r.history ++ [{ date := now, action := "Profile Updated", details := none }]
    ∧ handleSubmitIntent .edit data f tagsInput now
        = .updateAccount f.id (editPayload data f tagsInput now)
    ∧ (editPayload data f tagsInput now).username = normalizeUsername f.username
    ∧ (editPayload data f tagsInput now).tags = splitTags tagsInput
    ∧ (editPayload data f tagsInput now).id = f.id
    ∧ (editPayload data f tagsInput now).platform = f.platform
    ∧ (editPayload data f tagsInput now).followers = f.followers
    ∧ (editPayload data f tagsInput now).engagementRate = f.engagementRate
    ∧ (editPayload data f tagsInput now).status = f.status
    ∧ (editPayload data f tagsInput now).email = f.email
    ∧ (editPayload data f tagsInput now).password = f.password
    ∧ (editPayload data f tagsInput now).avatar = f.avatar
    ∧ (editPayload data f tagsInput now).isFavorite = f.isFavorite
    ∧ (editPayload data f tagsInput now).isArchived = f.isArchived := by
  have hh : historyOf data f.id = r.history := by
    rw [historyOf, hfind]
    rfl
  have h1 : (editPayload data f tagsInput now).history
      = historyOf data f.id ++ [profileUpdatedEntry now] := rfl
  refine ⟨?_, rfl, rfl, rfl, rfl, rfl, rfl, rfl, rfl, rfl, rfl, rfl, rfl, rfl⟩
  rw [h1, hh]
  rfl

/-- The record opened for the C6 witness, holding one prior log entry. -/
def editOrig : UserAccount :=
  { sampleAcct "1" with
      history := [{ date := "t0", action := "Account Created", details := some "Initial entry" }] }

/-- The staged form for the C6 witness: the opened record with an edit. -/
def editForm : UserAccount :=
  { editOrig with username := "newname" }

/-- Witness for C6: the concrete edit payload appends exactly one entry. -/
theorem edit_appends_one_log_entry_witness :
    (editPayload [editOrig] editForm "" "t1").history
      = editOrig.history ++ [{ date := "t1", action := "Profile Updated", details := none }] :=
  (edit_appends_one_log_entry [editOrig] editForm "" "t1" editOrig (by decide)).1

/-- C10: with a non-empty selection, the CSV export draws its rows from the
full in-memory collection restricted to the selected ids, not from the
current filtered view, so a selected record that the current view hides (for
example an archived record while the active view shows, the selection not
being cleared by view-mode or search changes) still appears among the
exported rows. -/
theorem export_uses_full_collection (data : List UserAccount) (sel : Finset String)
    (st : FilterState) (s : TableState) (m : ViewMode) (t : String)
    (hsel : 0 < sel.card) :
    exportSource data sel st = data.filter (fun d => decide (d.id ∈ sel))
    ∧ (∀ a, a ∈ data → a.id ∈ sel →
        a ∈ exportSource data sel st ∧ csvRow a ∈ exportLines data sel st)
    ∧ (∀ a, a ∈ data → a.isArchived = true →
        a ∉ filteredData data ⟨"", .active, false, none⟩)
    ∧ (setViewModeState s m).selectedIds = s.selectedIds
    ∧ (setSearchTermState s t).selectedIds = s.selectedIds := by
  have he : exportSource data sel st = data.filter (fun d => decide (d.id ∈ sel)) := by
    rw [exportSource, if_pos hsel]
  refine ⟨he, ?_, ?_, rfl, rfl⟩
  · intro a ha hid
    have hmem : a ∈ exportSource data sel st := by
      rw [he]
      exact List.mem_filter.mpr ⟨ha, by simp [hid]⟩
    refine ⟨hmem, ?_⟩
    rw [exportLines]
    exact List.mem_cons_of_mem _ (List.mem_map_of_mem _ hmem)
  · intro a _ harch hmem
    have hact : filteredData data ⟨"", .active, false, none⟩
        = data.filter (fun x => !x.isArchived) := rfl
    rw [hact] at hmem
    have h2 := (List.mem_filter.mp hmem).2
    rw [harch] at h2
    simp at h2

/-- An archived record used by the C10 witness. -/
def archAcct : UserAccount :=
  { sampleAcct "a" with isArchived := true }

/-- Witness for C10: the archived record selected as `{"a"}` is hidden by
the active view yet lands in the export rows. -/
theorem export_uses_full_collection_witness :
    csvRow archAcct
      ∈ exportLines [archAcct] {"a"} ⟨"", .active, false, none⟩
    ∧ archAcct ∉ filteredData [archAcct] ⟨"", .active, false, none⟩ :=
  ⟨((export_uses_full_collection [archAcct] {"a"} ⟨"", .active, false, none⟩
      ⟨"", ∅, 1, .active, none, false⟩ .active "" (by decide)).2.1 archAcct
      (by simp) (by decide)).2,
   (export_uses_full_collection [archAcct] {"a"} ⟨"", .active, false, none⟩
      ⟨"", ∅, 1, .active, none, false⟩ .active "" (by decide)).2.2.1 archAcct
      (by simp) rfl⟩

/-! ### Stability of the modelled sort -/

/-- Inserting an element that satisfies `p` and relates to every `p`-element
of the list places it at the head of the `p`-filtered result. -/
theorem filter_orderedInsert_pos {α : Type} (r : α → α → Prop) [DecidableRel r]
    (p : α → Bool) (a : α) (l : List α) (hpa : p a = true)
    (h : ∀ b ∈ l, p b = true → r a b) :
    (l.orderedInsert r a).filter p = a :: l.filter p := by
  induction l with
  | nil => simp [List.orderedInsert, hpa]
  | cons b l ih =>
    rw [List.orderedInsert]
    by_cases hr : r a b
    · rw [if_pos hr, List.filter_cons_of_pos hpa]
    · rw [if_neg hr]
      have hpb : p b = false := by
        by_cases hpbt : p b = true
        · exact absurd (h b (List.mem_cons_self b l) hpbt) hr
        · simpa using hpbt
      rw [List.filter_cons_of_neg (by simp [hpb]), List.filter_cons_of_neg (by simp [hpb])]
      exact ih (fun c hc hpc => h c (List.mem_cons_of_mem b hc) hpc)

/-- Inserting an element that fails `p` leaves the `p`-filtered result
unchanged. -/
theorem filter_orderedInsert_neg {α : Type} (r : α → α → Prop) [DecidableRel r]
    (p : α → Bool) (a : α) (l : List α) (hpa : p a = false) :
    (l.orderedInsert r a).filter p = l.filter p := by
  induction l with
  | nil => simp [List.orderedInsert, hpa]
  | cons b l ih =>
    rw [List.orderedInsert]
    by_cases hr : r a b
    · rw [if_pos hr, List.filter_cons_of_neg (by simp [hpa])]
    · rw [if_neg hr]
      by_cases hpb : p b = true
      · rw [List.filter_cons_of_pos hpb, List.filter_cons_of_pos hpb, ih]
      · rw [List.filter_cons_of_neg hpb, List.filter_cons_of_neg hpb, ih]

/-- Stability of insertion sort through a filter: when all `p`-elements are
mutually related (as ties under a key-based comparator are), sorting does not
change the `p`-filtered subsequence. -/
theorem filter_insertionSort {α : Type} (r : α → α → Prop) [DecidableRel r]
    (p : α → Bool) (H : ∀ a b, p a = true → p b = true → r a b) (l : List α) :
    (List.insertionSort r l).filter p = l.filter p := by
  induction l with
  | nil => rfl
  | cons a l ih =>
    rw [List.insertionSort]
    by_cases hpa : p a = true
    · rw [filter_orderedInsert_pos r p a _ hpa
        (fun b hb hpb => H a b hpa hpb), ih, List.filter_cons_of_pos hpa]
    · have hpa2 : p a = false := by
        simpa using hpa
      rw [filter_orderedInsert_neg r p a _ hpa2, ih,
        List.filter_cons_of_neg (by simp [hpa2])]

/-- The sort configuration of the C9 claim: engagement rate, ascending. -/
def engAsc : SortConfig :=
  { key := .engagementRate, direction := .asc }

/-- Under the engagement-ascending configuration the comparator ordering is
exactly the engagement-rate ordering. -/
theorem jsSortLe_engAsc (a b : UserAccount) :
    jsSortLe engAsc a b ↔ a.engagementRate ≤ b.engagementRate := by
  rw [jsSortLe, sortCmp]
  simp only [engAsc, sortKeyVal, JSValue.ltb]
  rcases lt_trichotomy a.engagementRate b.engagementRate with h | h | h
  · simp [h, le_of_lt h, not_lt_of_lt h]
  · simp [h, lt_irrefl]
  · simp [not_lt_of_lt h, h, not_le.mpr h]

/-- Under the manager-ascending configuration the comparator ordering is the
string ordering of the manager names with a missing manager read as the
empty string. -/
theorem jsSortLe_mgrAsc (a b : UserAccount) :
    jsSortLe { key := .accountManager, direction := .asc } a b
      ↔ a.accountManager.getD "" ≤ b.accountManager.getD "" := by
  rw [jsSortLe, sortCmp]
  simp only [sortKeyVal, JSValue.ltb]
  rcases lt_trichotomy (a.accountManager.getD "") (b.accountManager.getD "") with h | h | h
  · simp [h, le_of_lt h, not_lt_of_lt h]
  · simp [h, lt_irrefl]
  · simp [not_lt_of_lt h, h, not_le.mpr h]

/-- The lower-rated record of the C9 witness pair. -/
def rate4999Acct : UserAccount :=
  { sampleAcct "low" with engagementRate := 4999/1000 }

/-- The higher-rated record of the C9 witness pair. -/
def rate5Acct : UserAccount :=
  { sampleAcct "high" with engagementRate := 5 }

/-- C9: sorting by engagement rate ascending yields a view ordered by
non-decreasing engagement (so a 4.999 record is placed before a 5.0
record, as the final concrete conjunct shows on a pair listed the other way
round), equal-rate records keep their pre-sort relative order (the sorted
view filtered to any fixed rate equals the unsorted view so filtered), and a
missing manager field compares exactly as the empty string would. -/
theorem sort_engagement_stable (data : List UserAccount) (vm : ViewMode) :
    (filteredData data ⟨"", vm, false, some engAsc⟩).Pairwise
        (fun a b => a.engagementRate ≤ b.engagementRate)
    ∧ (∀ v : ℚ,
        (filteredData data ⟨"", vm, false, some engAsc⟩).filter
            (fun x => decide (x.engagementRate = v))
          = (filteredData data ⟨"", vm, false, none⟩).filter
            (fun x => decide (x.engagementRate = v)))
    ∧ (∀ a b : UserAccount,
        jsSortLe { key := .accountManager, direction := .asc } a b
          ↔ a.accountManager.getD "" ≤ b.accountManager.getD "")
    ∧ filteredData [rate5Acct, rate4999Acct] ⟨"", .active, false, some engAsc⟩
        = [rate4999Acct, rate5Acct] := by
  have hred : filteredData data ⟨"", vm, false, some engAsc⟩
      = List.insertionSort (jsSortLe engAsc) (data.filter (viewModeKeeps vm)) := rfl
  have hbase : filteredData data ⟨"", vm, false, none⟩
      = data.filter (viewModeKeeps vm) := rfl
  refine ⟨?_, ?_, fun a b => jsSortLe_mgrAsc a b, ?_⟩
  case refine_3 =>
    have h54 : ¬ jsSortLe engAsc rate5Acct rate4999Acct := by
      rw [jsSortLe_engAsc]
      show ¬ (5 : ℚ) ≤ 4999 / 1000
      norm_num
    have e1 : filteredData [rate5Acct, rate4999Acct] ⟨"", .active, false, some engAsc⟩
        = List.insertionSort (jsSortLe engAsc) [rate5Acct, rate4999Acct] := rfl
    have e2 : List.insertionSort (jsSortLe engAsc) [rate5Acct, rate4999Acct]
        = List.orderedInsert (jsSortLe engAsc) rate5Acct [rate4999Acct] := rfl
    rw [e1, e2, List.orderedInsert, if_neg h54]
    rfl
  · rw [hred]
    have htot : IsTotal UserAccount (jsSortLe engAsc) :=
      ⟨fun a b => by
        rw [jsSortLe_engAsc, jsSortLe_engAsc]
        exact le_total _ _⟩
    have htrans : IsTrans UserAccount (jsSortLe engAsc) :=
      ⟨fun a b c hab hbc => by
        rw [jsSortLe_engAsc] at hab hbc ⊢
        exact le_trans hab hbc⟩
    have hs := @List.sorted_insertionSort UserAccount (jsSortLe engAsc) _ htot htrans
      (data.filter (viewModeKeeps vm))
    exact List.Pairwise.imp (fun h => (jsSortLe_engAsc _ _).mp h) hs
  · intro v
    rw [hred, hbase]
    refine filter_insertionSort (jsSortLe engAsc) _ (fun a b ha hb => ?_) _
    rw [jsSortLe_engAsc]
    have ha2 : a.engagementRate = v := of_decide_eq_true ha
    have hb2 : b.engagementRate = v := of_decide_eq_true hb
    rw [ha2, hb2]

/-- Witness for C9 at the concrete two-record collection. -/
theorem sort_engagement_stable_witness :
    (filteredData [rate5Acct, rate4999Acct] ⟨"", .active, false, some engAsc⟩).Pairwise
        (fun a b => a.engagementRate ≤ b.engagementRate) :=
  (sort_engagement_stable [rate5Acct, rate4999Acct] .active).1
